import Mathlib

/-!
Verification development for the gitbutler change-capture layer.

Embedded source files:
* `src-tauri/src/delta_watchers.rs` — watch registry (`watch`/`unwatch`),
  the per-event recorder `register_file_change`, session metadata writer
  `write_beginning_meta_files`, and `get_meta_commit`.
* `crates/gitbutler-core/src/ops/state.rs` — `OplogHandle` persisted oplog head.

The `crdt` module (`Delta`, `TextDocument`) is referenced by
`delta_watchers.rs` but its source is not part of the repository snapshot;
its operations (`diff`, `apply`, `TextDocument::new`, `from_deltas`,
`update`, `get_deltas`) are modelled from the specification (spec sections 3,
4.4 and 9): a delta is an ordered list of retain/insert/delete operations
with a timestamp; `apply` fails loudly when the retain/delete counts do not
match the input length; `diff` produces a delta whose replay turns the old
text into the new one (the spec leaves the diff algorithm itself free beyond
the round-trip law; here it is the common-head/common-tail minimal edit).

Texts are modelled as lists of characters; file paths as strings.
-/

abbrev Text := List Char

/-- Modelled from the spec: one primitive edit operation of a Delta
(retain N characters, insert text, delete N characters). -/
inductive Operation where
  | retain (n : Nat)
  | insert (s : Text)
  | delete (n : Nat)
deriving DecidableEq

/-- Modelled from the spec: a Delta is an ordered list of primitive
operations plus a logical timestamp. -/
structure Delta where
  operations : List Operation
  timestampMs : Nat
deriving DecidableEq

/-- Modelled from the spec: apply a list of operations to a text.
Returns `none` (the model of "must fail loudly, not silently truncate")
when the retain/delete counts are inconsistent with the input length,
including leftover input after the last operation. -/
def applyOps : List Operation → Text → Option Text
  | [], t => if t = [] then some [] else none
  | Operation.retain n :: ops, t =>
      if n ≤ t.length then (applyOps ops (t.drop n)).map (fun r => t.take n ++ r)
      else none
  | Operation.insert s :: ops, t =>
      (applyOps ops t).map (fun r => s ++ r)
  | Operation.delete n :: ops, t =>
      if n ≤ t.length then applyOps ops (t.drop n)
      else none

/-- Modelled from the spec: `apply(delta, text)`. -/
def Delta.apply (d : Delta) (t : Text) : Option Text :=
  applyOps d.operations t

/-- Length of the longest common head of two texts. -/
def commonPrefixLen : Text → Text → Nat
  | x :: xs, y :: ys => if x = y then commonPrefixLen xs ys + 1 else 0
  | _, _ => 0

/-- Length of the longest common tail of two texts. -/
def commonSuffixLen (a b : Text) : Nat :=
  commonPrefixLen a.reverse b.reverse

/-- Modelled from the spec: `diff(old_text, new_text)` keeps the common
head, deletes the changed middle of the old text, inserts the changed
middle of the new text, and keeps the common tail. -/
def diffOps (a b : Text) : List Operation :=
  let p := commonPrefixLen a b
  let a1 := a.drop p
  let b1 := b.drop p
  let s := commonSuffixLen a1 b1
  [Operation.retain p, Operation.delete (a1.length - s),
   Operation.insert (b1.take (b1.length - s)), Operation.retain s]

/-- Modelled from the spec: `diff(old_text, new_text) -> delta`. -/
def diff (a b : Text) (ts : Nat) : Delta :=
  ⟨diffOps a b, ts⟩

theorem commonPrefixLen_le_left : ∀ a b : Text, commonPrefixLen a b ≤ a.length := by
  intro a
  induction a with
  | nil => intro b; cases b <;> simp [commonPrefixLen]
  | cons x xs ih =>
    intro b
    cases b with
    | nil => simp [commonPrefixLen]
    | cons y ys =>
      by_cases h : x = y
      · simpa [commonPrefixLen, h] using ih ys
      · simp [commonPrefixLen, h]

theorem commonPrefixLen_le_right : ∀ a b : Text, commonPrefixLen a b ≤ b.length := by
  intro a
  induction a with
  | nil => intro b; cases b <;> simp [commonPrefixLen]
  | cons x xs ih =>
    intro b
    cases b with
    | nil => simp [commonPrefixLen]
    | cons y ys =>
      by_cases h : x = y
      · simpa [commonPrefixLen, h] using ih ys
      · simp [commonPrefixLen, h]

theorem take_commonPrefixLen : ∀ a b : Text,
    a.take (commonPrefixLen a b) = b.take (commonPrefixLen a b) := by
  intro a
  induction a with
  | nil => intro b; cases b <;> simp [commonPrefixLen]
  | cons x xs ih =>
    intro b
    cases b with
    | nil => simp [commonPrefixLen]
    | cons y ys =>
      by_cases h : x = y
      · simp [commonPrefixLen, h, List.take_succ_cons, ih ys]
      · simp [commonPrefixLen, h]

theorem reverse_take_eq_drop_reverse : ∀ (r : Text) (n : Nat),
    (r.take n).reverse = r.reverse.drop (r.length - n) := by
  intro r
  induction r with
  | nil => intro n; simp
  | cons x xs ih =>
    intro n
    cases n with
    | zero =>
      simp [List.drop_eq_nil_of_le]
    | succ m =>
      simp only [List.take_succ_cons, List.reverse_cons, List.length_cons,
        Nat.succ_sub_succ]
      rw [List.drop_append_of_le_length
        (by simp [Nat.sub_le] : xs.length - m ≤ xs.reverse.length)]
      rw [ih m]

theorem drop_sub_eq_reverse_take (l : Text) (n : Nat) :
    l.drop (l.length - n) = (l.reverse.take n).reverse := by
  have h := reverse_take_eq_drop_reverse l.reverse n
  rw [List.reverse_reverse, List.length_reverse] at h
  exact h.symm

theorem commonSuffixLen_le_left (a b : Text) : commonSuffixLen a b ≤ a.length := by
  have h := commonPrefixLen_le_left a.reverse b.reverse
  simpa [commonSuffixLen] using h

theorem commonSuffixLen_le_right (a b : Text) : commonSuffixLen a b ≤ b.length := by
  have h := commonPrefixLen_le_right a.reverse b.reverse
  simpa [commonSuffixLen] using h

theorem drop_commonSuffixLen (a b : Text) :
    a.drop (a.length - commonSuffixLen a b) = b.drop (b.length - commonSuffixLen a b) := by
  rw [drop_sub_eq_reverse_take a (commonSuffixLen a b),
      drop_sub_eq_reverse_take b (commonSuffixLen a b)]
  have h : commonSuffixLen a b = commonPrefixLen a.reverse b.reverse := rfl
  rw [h, take_commonPrefixLen a.reverse b.reverse]

theorem applyOps_retain_cons (n : Nat) (ops : List Operation) (t : Text)
    (h : n ≤ t.length) :
    applyOps (Operation.retain n :: ops) t
      = (applyOps ops (t.drop n)).map (fun r => t.take n ++ r) := by
  simp only [applyOps]
  rw [if_pos h]

theorem applyOps_delete_cons (n : Nat) (ops : List Operation) (t : Text)
    (h : n ≤ t.length) :
    applyOps (Operation.delete n :: ops) t = applyOps ops (t.drop n) := by
  simp only [applyOps]
  rw [if_pos h]

theorem applyOps_insert_cons (s : Text) (ops : List Operation) (t : Text) :
    applyOps (Operation.insert s :: ops) t = (applyOps ops t).map (fun r => s ++ r) := rfl

theorem applyOps_nil_nil : applyOps [] [] = some [] := rfl

theorem applyOps_diff_shape (a mid : Text) (p s : Nat)
    (hp : p ≤ a.length) (hs : s ≤ (a.drop p).length) :
    applyOps [Operation.retain p, Operation.delete ((a.drop p).length - s),
              Operation.insert mid, Operation.retain s] a
      = some (a.take p ++ (mid ++ (a.drop p).drop ((a.drop p).length - s))) := by
  set X : Text := (a.drop p).drop ((a.drop p).length - s) with hX
  have hlen : X.length = s := by
    rw [hX, List.length_drop, Nat.sub_sub_self hs]
  have hnil : X.drop s = [] := by rw [← hlen]; exact List.drop_length X
  have htake : X.take s = X := by rw [← hlen]; exact List.take_length X
  have hsle : s ≤ X.length := by rw [hlen]
  rw [applyOps_retain_cons p _ a hp,
      applyOps_delete_cons _ _ (a.drop p) (Nat.sub_le _ _)]
  rw [← hX, applyOps_insert_cons, applyOps_retain_cons s [] X hsle,
      hnil, applyOps_nil_nil]
  simp [htake]

/-- C1: for all text pairs (a, b) and any timestamp, applying the delta
produced by `diff a b` to the text `a` yields exactly the text `b`
(the round-trip law of the Delta Model's diff and apply operations). -/
theorem c1_diff_apply_round_trip (a b : Text) (ts : Nat) :
    Delta.apply (diff a b ts) a = some b := by
  have hp : commonPrefixLen a b ≤ a.length := commonPrefixLen_le_left a b
  have hpb : commonPrefixLen a b ≤ b.length := commonPrefixLen_le_right a b
  set p := commonPrefixLen a b with hpdef
  set a1 := a.drop p with ha1
  set b1 := b.drop p with hb1
  have hs : commonSuffixLen a1 b1 ≤ a1.length := commonSuffixLen_le_left a1 b1
  set s := commonSuffixLen a1 b1 with hsdef
  have hdiff : diffOps a b
      = [Operation.retain p, Operation.delete (a1.length - s),
         Operation.insert (b1.take (b1.length - s)), Operation.retain s] := rfl
  have hshape := applyOps_diff_shape a (b1.take (b1.length - s)) p s hp hs
  show applyOps (diffOps a b) a = some b
  rw [← ha1] at hshape
  rw [hdiff, hshape]
  have hsuf : a1.drop (a1.length - s) = b1.drop (b1.length - s) :=
    drop_commonSuffixLen a1 b1
  rw [hsuf, take_commonPrefixLen a b, ← hpdef]
  rw [List.take_append_drop (b1.length - s) b1]
  rw [hb1, List.take_append_drop p b]

/-- Modelled from the spec: replay an ordered list of deltas from a base
text; insertion order is the only valid replay order. -/
def applyDeltas : Text → List Delta → Option Text
  | t, [] => some t
  | t, d :: ds =>
    match Delta.apply d t with
    | some t2 => applyDeltas t2 ds
    | none => none

/-- Modelled from the spec: a TextDocument materializes a base text plus the
ordered deltas applied on top of it; `doc` is the materialized text. -/
structure TextDocument where
  doc : Text
  deltas : List Delta
deriving DecidableEq

/-- Modelled from the spec: `TextDocument::new(value, deltas)` materializes
the deltas on top of the base `value`; an inconsistent delta fails loudly
(modelled as `none`). -/
def TextDocument.new (value : Text) (deltas : List Delta) : Option TextDocument :=
  match applyDeltas value deltas with
  | some t => some ⟨t, deltas⟩
  | none => none

/-- Modelled from the spec: `TextDocument::from_deltas(deltas)` builds the
document from an empty base text. -/
def TextDocument.from_deltas (deltas : List Delta) : Option TextDocument :=
  TextDocument.new [] deltas

/-- Modelled from the spec: `update(new_content)` diffs the materialized
text against the new content; identical content reports no change
(modelled as `none`); otherwise exactly one new delta is appended and the
materialized text becomes the new content. -/
def TextDocument.update (d : TextDocument) (newText : Text) (ts : Nat) : Option TextDocument :=
  if newText = d.doc then none
  else some ⟨newText, d.deltas ++ [diff d.doc newText ts]⟩

/-- Modelled from the spec: `get_deltas` returns the document's full ordered
delta sequence ("returns updated project deltas" in the source's comment). -/
def TextDocument.get_deltas (d : TextDocument) : List Delta :=
  d.deltas

/-- State of the four session metadata records under `.git/gb/session/meta`;
a `none` field means the record file does not exist on disk. -/
structure MetaState where
  sessionStart : Option String
  branch : Option String
  commit : Option String
  sessionLast : Option String
deriving DecidableEq

/-- A fresh project: no session metadata records exist. -/
def freshMeta : MetaState := ⟨none, none, none, none⟩

/-- One record-file write performed by `write_beginning_meta_files`. -/
inductive MetaWrite where
  | sessionStart (v : String)
  | branch (v : String)
  | commit (v : String)
  | sessionLast (v : String)
deriving DecidableEq

/-- Embedded from `delta_watchers.rs::write_beginning_meta_files`: writes
session-start, branch and commit only when the corresponding record does
not already exist, then unconditionally overwrites the last-activity
record. `bn` is the head branch name, `ci` the head commit id, `now` the
current wall-clock timestamp rendered as a string. Returns the new record
state together with the list of file writes performed, in source order. -/
def write_beginning_meta_files (bn ci now : String) (m : MetaState) : MetaState × List MetaWrite :=
  let p1 : MetaState × List MetaWrite :=
    if m.sessionStart.isSome then (m, [])
    else ({ m with sessionStart := some now }, [MetaWrite.sessionStart now])
  let p2 : MetaState × List MetaWrite :=
    if p1.1.branch.isSome then p1
    else ({ p1.1 with branch := some bn }, p1.2 ++ [MetaWrite.branch bn])
  let p3 : MetaState × List MetaWrite :=
    if p2.1.commit.isSome then p2
    else ({ p2.1 with commit := some ci }, p2.2 ++ [MetaWrite.commit ci])
  ({ p3.1 with sessionLast := some now }, p3.2 ++ [MetaWrite.sessionLast now])

/-- Last element of a list of timestamps, with a default. -/
def lastOr (d : Option String) : List String → Option String
  | [] => d
  | x :: xs => lastOr (some x) xs

/-- Session tracking across a sequence of events: each processed event
invokes `write_beginning_meta_files` exactly once (it is the first
statement of `register_file_change`); the per-event timestamps are given
in order. Returns the final record state and the per-event write logs. -/
def processMeta (bn ci : String) : List String → MetaState → MetaState × List (List MetaWrite)
  | [], m => (m, [])
  | t :: ts, m =>
    let step := write_beginning_meta_files bn ci t m
    let rest := processMeta bn ci ts step.1
    (rest.1, step.2 :: rest.2)

theorem write_meta_steady (bn ci now : String) (m : MetaState)
    (h1 : m.sessionStart.isSome = true) (h2 : m.branch.isSome = true)
    (h3 : m.commit.isSome = true) :
    write_beginning_meta_files bn ci now m
      = ({ m with sessionLast := some now }, [MetaWrite.sessionLast now]) := by
  simp [write_beginning_meta_files, h1, h2, h3]

theorem processMeta_steady (bn ci : String) : ∀ (ts : List String) (m : MetaState),
    m.sessionStart.isSome = true → m.branch.isSome = true → m.commit.isSome = true →
    processMeta bn ci ts m
      = (⟨m.sessionStart, m.branch, m.commit, lastOr m.sessionLast ts⟩,
         ts.map (fun x => [MetaWrite.sessionLast x])) := by
  intro ts
  induction ts with
  | nil => intro m h1 h2 h3; simp [processMeta, lastOr]
  | cons t ts ih =>
    intro m h1 h2 h3
    simp only [processMeta]
    rw [write_meta_steady bn ci t m h1 h2 h3]
    rw [ih { m with sessionLast := some t } (by simpa using h1) (by simpa using h2)
      (by simpa using h3)]
    simp [lastOr]

/-- C3: for every sequence of N events (N ≥ 1) on a fresh project, the
session-start, branch and commit records are each written exactly once,
during processing of the first event, and are never modified by any later
event (the write log of every later event is exactly one last-activity
write), while the last-activity record is overwritten on every event and
ends at the last event's timestamp. -/
theorem c3_session_single_write_fields (bn ci t : String) (ts : List String) :
    processMeta bn ci (t :: ts) freshMeta
      = (⟨some t, some bn, some ci, lastOr (some t) ts⟩,
         [MetaWrite.sessionStart t, MetaWrite.branch bn, MetaWrite.commit ci,
          MetaWrite.sessionLast t] :: ts.map (fun x => [MetaWrite.sessionLast x])) := by
  simp only [processMeta]
  have hfirst : write_beginning_meta_files bn ci t freshMeta
      = (⟨some t, some bn, some ci, some t⟩,
         [MetaWrite.sessionStart t, MetaWrite.branch bn, MetaWrite.commit ci,
          MetaWrite.sessionLast t]) := rfl
  rw [hfirst]
  rw [processMeta_steady bn ci ts ⟨some t, some bn, some ci, some t⟩ rfl rfl rfl]

/-- Embedded from the git2 usage in `delta_watchers.rs`: a commit is its id
and its tree, the tree modelled as an association list from
repository-relative path to blob content (blobs are read as UTF-8 text,
as the source unwraps that conversion). -/
structure GCommit where
  cid : String
  tree : List (String × Text)
deriving DecidableEq

/-- Association-list lookup over a commit tree (`tree.get_path`). -/
def lookupT : List (String × Text) → String → Option Text
  | [], _ => none
  | (k, v) :: rest, key => if k = key then some v else lookupT rest key

/-- Embedded view of the repository as `register_file_change` reads it: the
optional commit of `refs/gitbutler/current`, the head commit, the head
reference name, and the answer of `is_path_ignored` for the event path
(`none` models an Err result). The head is modelled as present, since
every source path touching it unwraps it. -/
structure Repo where
  currentRef : Option GCommit
  headCommit : GCommit
  headName : String
  pathIgnored : Option Bool
deriving DecidableEq

/-- Embedded from `delta_watchers.rs::get_meta_commit`: the commit of
`refs/gitbutler/current` when that ref resolves, else the head commit. -/
def get_meta_commit (repo : Repo) : GCommit :=
  match repo.currentRef with
  | some c => c
  | none => repo.headCommit

/-- Base-text resolution step of `register_file_change` (source lines
127-137): the file's content in the tree of the meta commit, `none` when
the path is absent from that tree. -/
def commit_blob_of (repo : Repo) (relPath : String) : Option Text :=
  lookupT (get_meta_commit repo).tree relPath

/-- Four-case TextDocument construction of `register_file_change` (source
lines 143-148). -/
def mk_text_document (blob : Option Text) (deltas : Option (List Delta)) : Option TextDocument :=
  match blob, deltas with
  | some contents, some ds => TextDocument.new contents ds
  | some contents, none => TextDocument.new contents []
  | none, some ds => TextDocument.from_deltas ds
  | none, none => TextDocument.from_deltas []

/-- One raw filesystem event as `register_file_change` consumes it: whether
the target is an existing regular file, the project-relative path, and the
on-disk content (`none` models a failing `fs::read_to_string`). -/
structure FileEvent where
  isFile : Bool
  relPath : String
  diskContent : Option Text
deriving DecidableEq

/-- Return value of `register_file_change`: a panic (an `unwrap`/`expect`
firing), `None`, or `Some(deltas)`. -/
inductive RegRes where
  | panicked (msg : String)
  | noDelta
  | deltas (ds : List Delta)
deriving DecidableEq

def RegRes.isPanic : RegRes → Bool
  | RegRes.panicked _ => true
  | _ => false

/-- Observable outcome of one `register_file_change` call: its return
value, the `save_file_deltas` call it made (if any), and the session
metadata state and writes (which happen first, unconditionally). -/
structure RegOutcome where
  res : RegRes
  saved : Option (String × List Delta)
  metaState : MetaState
  metaWrites : List MetaWrite
deriving DecidableEq

/-- Embedded from `delta_watchers.rs::register_file_change`. `prior` is the
stored delta list `project.get_file_deltas` for the event path, `now` the
wall-clock timestamp string, `ts` the logical timestamp given to a new
delta, `m` the session metadata state. Source order: meta files first,
then the is-file filter, then the ignore filter (an erring check counts as
ignored via `unwrap_or(true)`), then document reconstruction, then the
on-disk read (whose failure hits an `expect`), then `update`. -/
def register_file_change (repo : Repo) (prior : Option (List Delta)) (ev : FileEvent)
    (now : String) (ts : Nat) (m : MetaState) : RegOutcome :=
  let mw := write_beginning_meta_files repo.headName repo.headCommit.cid now m
  if ev.isFile = false then ⟨RegRes.noDelta, none, mw.1, mw.2⟩
  else if (repo.pathIgnored.getD true) = true then ⟨RegRes.noDelta, none, mw.1, mw.2⟩
  else
    match mk_text_document (commit_blob_of repo ev.relPath) prior with
    | none => ⟨RegRes.panicked "invalid deltas", none, mw.1, mw.2⟩
    | some textDoc =>
      match ev.diskContent with
      | none => ⟨RegRes.panicked "Failed to read", none, mw.1, mw.2⟩
      | some contents =>
        match textDoc.update contents ts with
        | none => ⟨RegRes.noDelta, none, mw.1, mw.2⟩
        | some doc2 =>
          ⟨RegRes.deltas doc2.get_deltas, some (ev.relPath, doc2.get_deltas), mw.1, mw.2⟩

/-- Embedded from the worker loop in `watch` (source lines 60-89): a
notification is emitted on the window exactly when `register_file_change`
returns `Some(deltas)`, carrying those deltas. -/
def notified (o : RegOutcome) : Option (List Delta) :=
  match o.res with
  | RegRes.deltas ds => some ds
  | _ => none

/-- Embedded worker loop of `watch`: processes queued events in order; a
panic inside `register_file_change` unwinds the spawned thread, so
processing stops and later queued events are never handled. Each queue
entry carries the stored prior deltas for its path, the event, the
wall-clock string and the logical timestamp. Returns the outcomes of the
events actually processed. -/
def run_worker (repo : Repo) :
    List (Option (List Delta) × FileEvent × String × Nat) → MetaState → List RegOutcome
  | [], _ => []
  | (prior, ev, now, ts) :: rest, m =>
    let o := register_file_change repo prior ev now ts m
    if o.res.isPanic then [o]
    else o :: run_worker repo rest o.metaState

/-- The watcher registration mapping: project path to watcher handle
(handles abstracted as numbers). -/
abbrev WatcherMap := List (String × Nat)

/-- Association-list lookup in the watcher map. -/
def lookupW : WatcherMap → String → Option Nat
  | [], _ => none
  | (k, v) :: rest, key => if k = key then some v else lookupW rest key

/-- Removal of a key from the watcher map (`HashMap::remove`). -/
def removeW : WatcherMap → String → WatcherMap
  | [], _ => []
  | (k, v) :: rest, key => if k = key then removeW rest key else (k, v) :: removeW rest key

/-- Outcome of `unwatch`: the source returns unit, but the `expect` on the
OS-level unwatch can panic. -/
inductive UnwatchOutcome where
  | ok (m : WatcherMap)
  | panicked (msg : String)
deriving DecidableEq

/-- Embedded from `delta_watchers.rs::unwatch`: removes the project's entry
from the watcher map; when one was present the OS watch is stopped
(`osUnwatchOk` tells whether `watcher.unwatch` succeeds; a failure hits an
`expect`). When no registration exists nothing happens at all. -/
def unwatch (m : WatcherMap) (projectPath : String) (osUnwatchOk : Bool) : UnwatchOutcome :=
  match lookupW m projectPath with
  | some _ =>
    if osUnwatchOk then UnwatchOutcome.ok (removeW m projectPath)
    else UnwatchOutcome.panicked "Failed to unwatch"
  | none => UnwatchOutcome.ok m

/-- Return value of `watch` as observable to its caller: the source
signature is `Result<(), String>`, but several setup paths panic instead
of returning an error value. -/
inductive WRes where
  | okUnit
  | resultError (e : String)
  | panicked (msg : String)
deriving DecidableEq

def WRes.isResultError : WRes → Bool
  | WRes.resultError _ => true
  | _ => false

/-- Embedded from the setup part of `delta_watchers.rs::watch` (source
lines 31-57): `repoOpen` is the result of `Repository::open` (`none`
models an error, which the source turns into `panic!`), `watcherCreateOk`
whether `RecommendedWatcher::new` succeeds and `watchEstablishOk` whether
the recursive watch is established (both failures hit an `expect`). Only
on full success is the watcher handle inserted into the map (replacing any
entry under the same path) and `Ok(())` returned. Returns the
caller-visible result and the watcher map afterwards. -/
def watch (repoOpen : Option Repo) (watcherCreateOk watchEstablishOk : Bool)
    (projectPath : String) (handle : Nat) (m : WatcherMap) : WRes × WatcherMap :=
  match repoOpen with
  | none => (WRes.panicked "failed to open", m)
  | some _ =>
    if watcherCreateOk = false then (WRes.panicked "Failed to create watcher", m)
    else if watchEstablishOk = false then (WRes.panicked "Failed to watch", m)
    else (WRes.okUnit, (projectPath, handle) :: removeW m projectPath)

/-- Embedded from `ops/state.rs`: the oplog head record persisted in
`oplog.toml`. -/
structure Oplog where
  head_sha : Option String
deriving DecidableEq

/-- State of the `oplog.toml` file: absent, present and holding the TOML
serialization of an `Oplog` (the external toml crate's serialize/parse
round trip is assumed), or present but unparseable. -/
inductive OplogFile where
  | absent
  | stored (o : Oplog)
  | corrupt
deriving DecidableEq

/-- Error cases surfaced by the oplog state handle. -/
inductive OpsErr where
  | parseError
deriving DecidableEq

/-- Embedded from `OplogHandle::read_file`: a missing file yields
`Oplog::default()` (whose head_sha is None); an unparseable file errors. -/
def read_file : OplogFile → Except OpsErr Oplog
  | OplogFile.absent => Except.ok ⟨none⟩
  | OplogFile.stored o => Except.ok o
  | OplogFile.corrupt => Except.error OpsErr.parseError

/-- Embedded from `OplogHandle::write_file`: replaces the file contents
with the serialization of the given oplog. -/
def write_file (o : Oplog) : OplogFile :=
  OplogFile.stored o

/-- Embedded from `OplogHandle::set_oplog_head`. -/
def set_oplog_head (sha : String) (s : OplogFile) : Except OpsErr OplogFile :=
  match read_file s with
  | Except.ok o => Except.ok (write_file { o with head_sha := some sha })
  | Except.error e => Except.error e

/-- Embedded from `OplogHandle::get_oplog_head`. -/
def get_oplog_head (s : OplogFile) : Except OpsErr (Option String) :=
  match read_file s with
  | Except.ok o => Except.ok o.head_sha
  | Except.error e => Except.error e

/-- Concrete head commit used by the concrete-scenario theorems: `f.txt`
contains "hello". -/
def exHead : GCommit := ⟨"c0", [("f.txt", "hello".toList)]⟩

/-- Concrete repository with no `refs/gitbutler/current` ref and a
non-ignored event path. -/
def exRepo : Repo := ⟨none, exHead, "refs/heads/master", some false⟩

/-- C2: for every event on a regular, non-ignored file whose on-disk
content is byte-identical to the materialized text of the TextDocument
reconstructed from base text and prior deltas, `register_file_change`
returns no delta, performs no `save_file_deltas` call, and the worker loop
emits no notification. -/
theorem c2_identical_content_produces_nothing (repo : Repo) (prior : Option (List Delta))
    (ev : FileEvent) (now : String) (ts : Nat) (m : MetaState) (textDoc : TextDocument)
    (hfile : ev.isFile = true)
    (hign : repo.pathIgnored = some false)
    (hdoc : mk_text_document (commit_blob_of repo ev.relPath) prior = some textDoc)
    (hsame : ev.diskContent = some textDoc.doc) :
    (register_file_change repo prior ev now ts m).res = RegRes.noDelta
    ∧ (register_file_change repo prior ev now ts m).saved = none
    ∧ notified (register_file_change repo prior ev now ts m) = none := by
  have hupd : textDoc.update textDoc.doc ts = none := by
    simp [TextDocument.update]
  simp [register_file_change, hfile, hign, hdoc, hsame, hupd, notified]

/-- Concrete event rewriting `f.txt` with its unchanged content. -/
def c2Ev : FileEvent := ⟨true, "f.txt", some "hello".toList⟩

/-- Concrete document reconstructed from base "hello" and no prior deltas. -/
def c2Doc : TextDocument := ⟨"hello".toList, []⟩

theorem c2_witness :
    (register_file_change exRepo none c2Ev "1700000000" 1 freshMeta).res = RegRes.noDelta
    ∧ (register_file_change exRepo none c2Ev "1700000000" 1 freshMeta).saved = none
    ∧ notified (register_file_change exRepo none c2Ev "1700000000" 1 freshMeta) = none :=
  c2_identical_content_produces_nothing exRepo none c2Ev "1700000000" 1 freshMeta c2Doc
    rfl rfl (by decide) rfl

/-- Concrete event whose on-disk read fails (for example the file holds
bytes that are not valid UTF-8, so `fs::read_to_string` errors). -/
def c4EvBad : FileEvent := ⟨true, "f.txt", none⟩

/-- Concrete well-formed follow-up event changing `f.txt` to
"hello world". -/
def c4EvGood : FileEvent := ⟨true, "f.txt", some "hello world".toList⟩

/-- C4 (evidence of the divergence): a failing on-disk read hits
`expect`, `register_file_change` panics, the worker thread unwinds, and a
later well-formed event in the same queue is never processed: the
two-event queue yields exactly one outcome, the panic. -/
theorem c4_read_failure_kills_worker :
    run_worker exRepo [(none, c4EvBad, "t1", 1), (none, c4EvGood, "t2", 2)] freshMeta
      = [⟨RegRes.panicked "Failed to read", none,
          ⟨some "t1", some "refs/heads/master", some "c0", some "t1"⟩,
          [MetaWrite.sessionStart "t1", MetaWrite.branch "refs/heads/master",
           MetaWrite.commit "c0", MetaWrite.sessionLast "t1"]⟩] := by
  decide

/-- C5 counterexample: when the repository cannot be opened, `watch` does
not propagate a `Result` error to its caller: it panics
(`panic!("failed to open: ...")`). -/
theorem c5_counterexample :
    (watch none true true "/p" 0 []).1 = WRes.panicked "failed to open"
    ∧ WRes.isResultError (watch none true true "/p" 0 []).1 = false :=
  ⟨rfl, rfl⟩

/-- C5 (amended): for every project whose repository cannot be opened,
`watch` fails fast before registering anything: the failure is surfaced to
the caller as a panic — not as a `Result` error — and the watcher map is
left unchanged, so no partial registration is left behind. -/
theorem c5_open_failure_panics_no_partial_registration
    (watcherCreateOk watchEstablishOk : Bool) (projectPath : String)
    (handle : Nat) (m : WatcherMap) :
    (watch none watcherCreateOk watchEstablishOk projectPath handle m).1
        = WRes.panicked "failed to open"
    ∧ (watch none watcherCreateOk watchEstablishOk projectPath handle m).2 = m :=
  ⟨rfl, rfl⟩

/-- C6: `register_file_change` returns no delta (and saves nothing) when
the event target is not an existing regular file, or when the path is
excluded by the project's ignore rules, or when the ignore check itself
fails — an erring `is_path_ignored` is treated as excluded via
`unwrap_or(true)`, failing safe toward not capturing. -/
theorem c6_filters_return_no_delta (repo : Repo) (prior : Option (List Delta))
    (ev : FileEvent) (now : String) (ts : Nat) (m : MetaState)
    (h : ev.isFile = false ∨ repo.pathIgnored = some true ∨ repo.pathIgnored = none) :
    (register_file_change repo prior ev now ts m).res = RegRes.noDelta
    ∧ (register_file_change repo prior ev now ts m).saved = none := by
  rcases h with h | h | h
  · simp [register_file_change, h]
  · cases hf : ev.isFile <;> simp [register_file_change, hf, h]
  · cases hf : ev.isFile <;> simp [register_file_change, hf, h]

theorem c6_witness :
    (register_file_change exRepo none ⟨false, "somedir", none⟩ "t0" 0 freshMeta).res
        = RegRes.noDelta
    ∧ (register_file_change exRepo none ⟨false, "somedir", none⟩ "t0" 0 freshMeta).saved
        = none :=
  c6_filters_return_no_delta exRepo none ⟨false, "somedir", none⟩ "t0" 0 freshMeta (Or.inl rfl)

/-- C7: the base text is resolved from the tree of the commit pointed to by
`refs/gitbutler/current` when that ref exists, and otherwise from the tree
of the repository head commit; absence of the file in that tree yields no
base text, in which case the TextDocument is built from an empty base. -/
theorem c7_base_text_resolution (repo : Repo) (relPath : String) :
    (∀ c, repo.currentRef = some c → commit_blob_of repo relPath = lookupT c.tree relPath)
    ∧ (repo.currentRef = none →
        commit_blob_of repo relPath = lookupT repo.headCommit.tree relPath)
    ∧ (∀ prior : Option (List Delta), lookupT (get_meta_commit repo).tree relPath = none →
        mk_text_document (commit_blob_of repo relPath) prior
          = TextDocument.new [] (prior.getD [])) := by
  refine ⟨?_, ?_, ?_⟩
  · intro c hc
    simp [commit_blob_of, get_meta_commit, hc]
  · intro hc
    simp [commit_blob_of, get_meta_commit, hc]
  · intro prior hnone
    have hb : commit_blob_of repo relPath = none := hnone
    cases prior with
    | none => simp [mk_text_document, hb, TextDocument.from_deltas]
    | some ds => simp [mk_text_document, hb, TextDocument.from_deltas]

/-- Concrete `refs/gitbutler/current` commit whose tree holds different
content than the head tree. -/
def exCur : GCommit := ⟨"c1", [("f.txt", "world".toList)]⟩

/-- Concrete repository where `refs/gitbutler/current` exists. -/
def exRepoCur : Repo := ⟨some exCur, exHead, "refs/heads/master", some false⟩

theorem c7_witness :
    commit_blob_of exRepoCur "f.txt" = lookupT exCur.tree "f.txt"
    ∧ commit_blob_of exRepo "f.txt" = lookupT exHead.tree "f.txt"
    ∧ mk_text_document (commit_blob_of exRepo "missing.txt") (some ([] : List Delta))
        = TextDocument.new [] ((some ([] : List Delta)).getD []) :=
  ⟨(c7_base_text_resolution exRepoCur "f.txt").1 exCur rfl,
   (c7_base_text_resolution exRepo "f.txt").2.1 rfl,
   (c7_base_text_resolution exRepo "missing.txt").2.2 (some []) (by decide)⟩

theorem textDocument_new_deltas (v : Text) (ds : List Delta) (d : TextDocument)
    (h : TextDocument.new v ds = some d) : d.deltas = ds := by
  unfold TextDocument.new at h
  cases happ : applyDeltas v ds with
  | some t =>
    rw [happ] at h
    injection h with h2
    subst h2
    rfl
  | none =>
    rw [happ] at h
    exact Option.noConfusion h

theorem mk_text_document_deltas (blob : Option Text) (prior : Option (List Delta))
    (d : TextDocument) (h : mk_text_document blob prior = some d) :
    d.deltas = prior.getD [] := by
  cases blob with
  | some v =>
    cases prior with
    | some ds => exact textDocument_new_deltas v ds d h
    | none => exact textDocument_new_deltas v [] d h
  | none =>
    cases prior with
    | some ds => exact textDocument_new_deltas [] ds d h
    | none => exact textDocument_new_deltas [] [] d h

/-- C8 (amended): on every event on which `update` reports a change, the
recorder persists the full updated delta list — the prior deltas with the
one new delta of this update appended — replacing the stored list, and
returns that same full list (prior deltas included, not only the new
delta); this full list is also what the worker loop forwards to the
notification sink. -/
theorem c8_full_delta_list_saved_and_returned (repo : Repo) (prior : Option (List Delta))
    (ev : FileEvent) (now : String) (ts : Nat) (m : MetaState) (textDoc : TextDocument)
    (contents : Text)
    (hfile : ev.isFile = true)
    (hign : repo.pathIgnored = some false)
    (hdoc : mk_text_document (commit_blob_of repo ev.relPath) prior = some textDoc)
    (hdisk : ev.diskContent = some contents)
    (hchange : contents ≠ textDoc.doc) :
    (register_file_change repo prior ev now ts m).res
        = RegRes.deltas (prior.getD [] ++ [diff textDoc.doc contents ts])
    ∧ (register_file_change repo prior ev now ts m).saved
        = some (ev.relPath, prior.getD [] ++ [diff textDoc.doc contents ts])
    ∧ notified (register_file_change repo prior ev now ts m)
        = some (prior.getD [] ++ [diff textDoc.doc contents ts]) := by
  have hdel : textDoc.deltas = prior.getD [] := mk_text_document_deltas _ _ _ hdoc
  have hupd : textDoc.update contents ts
      = some ⟨contents, textDoc.deltas ++ [diff textDoc.doc contents ts]⟩ := by
    simp [TextDocument.update, hchange]
  simp [register_file_change, hfile, hign, hdoc, hdisk, hupd, notified,
    TextDocument.get_deltas, hdel]

/-- Concrete repository for the C8 scenario: head tree holds
`f.txt = "a"`. -/
def c8Repo : Repo := ⟨none, ⟨"c0", [("f.txt", "a".toList)]⟩, "refs/heads/master", some false⟩

/-- Prior stored delta turning "a" into "ab". -/
def c8d1 : Delta := diff "a".toList "ab".toList 1

/-- New delta of this update, turning "ab" into "abc". -/
def c8d2 : Delta := diff "ab".toList "abc".toList 2

/-- Concrete event rewriting `f.txt` to "abc". -/
def c8Ev : FileEvent := ⟨true, "f.txt", some "abc".toList⟩

/-- C8 counterexample: with one prior stored delta and an update producing
one new delta, `register_file_change` returns the full two-element delta
list, which is not the one-element list of only the new delta produced by
this update. -/
theorem c8_counterexample :
    (register_file_change c8Repo (some [c8d1]) c8Ev "t1" 2 freshMeta).res
        = RegRes.deltas [c8d1, c8d2]
    ∧ [c8d1, c8d2] ≠ [c8d2] := by
  exact ⟨by decide, by decide⟩

theorem c8_witness :
    (register_file_change c8Repo (some [c8d1]) c8Ev "t1" 2 freshMeta).res
        = RegRes.deltas ((some [c8d1]).getD [] ++ [diff "ab".toList "abc".toList 2])
    ∧ (register_file_change c8Repo (some [c8d1]) c8Ev "t1" 2 freshMeta).saved
        = some (c8Ev.relPath, (some [c8d1]).getD [] ++ [diff "ab".toList "abc".toList 2])
    ∧ notified (register_file_change c8Repo (some [c8d1]) c8Ev "t1" 2 freshMeta)
        = some ((some [c8d1]).getD [] ++ [diff "ab".toList "abc".toList 2]) :=
  c8_full_delta_list_saved_and_returned c8Repo (some [c8d1]) c8Ev "t1" 2 freshMeta
    ⟨"ab".toList, [c8d1]⟩ "abc".toList rfl rfl (by decide) rfl (by decide)

/-- C9: calling `unwatch` for a project with no active registration in the
watcher map is a no-op that never fails: it returns without panicking and
leaves the watcher map unchanged. -/
theorem c9_unwatch_noop_when_absent (m : WatcherMap) (projectPath : String)
    (osUnwatchOk : Bool) (h : lookupW m projectPath = none) :
    unwatch m projectPath osUnwatchOk = UnwatchOutcome.ok m := by
  simp [unwatch, h]

theorem c9_witness :
    unwatch [("/other/project", 5)] "/p" false = UnwatchOutcome.ok [("/other/project", 5)] :=
  c9_unwatch_noop_when_absent [("/other/project", 5)] "/p" false (by decide)

/-- C10: when the oplog state file does not exist, `get_oplog_head` returns
`Ok(None)` rather than an error; and after every successful
`set_oplog_head(sha)`, `get_oplog_head` on the resulting state returns
`Ok(Some(sha))` — the get-after-set round trip on the persisted oplog
head. -/
theorem c10_oplog_head_get_after_set :
    get_oplog_head OplogFile.absent = Except.ok none
    ∧ ∀ (sha : String) (s s2 : OplogFile),
        set_oplog_head sha s = Except.ok s2 →
        get_oplog_head s2 = Except.ok (some sha) := by
  constructor
  · rfl
  · intro sha s s2 h
    cases s with
    | absent =>
      simp only [set_oplog_head, read_file, write_file] at h
      injection h with h2
      subst h2
      rfl
    | stored o =>
      simp only [set_oplog_head, read_file, write_file] at h
      injection h with h2
      subst h2
      rfl
    | corrupt =>
      simp only [set_oplog_head, read_file] at h
      exact Except.noConfusion h

theorem c10_witness :
    get_oplog_head OplogFile.absent = Except.ok none
    ∧ get_oplog_head (OplogFile.stored ⟨some "abc123"⟩) = Except.ok (some "abc123") :=
  ⟨c10_oplog_head_get_after_set.1,
   c10_oplog_head_get_after_set.2 "abc123" OplogFile.absent
     (OplogFile.stored ⟨some "abc123"⟩) rfl⟩
